import Mathlib

/-!
Verification development for the solana-jupiter-bot trading engine.

We shallowly embed the decision-and-execution core of the bot in Lean:
profit computation and route selection (src/utils, ArbitrageStrategy.ts),
the per-cycle execute operations of the two legacy strategies
(pingpong.ts, arbitrage.ts) together with their error counter and
process-exit circuit breaker, the cache-driven strategy cycles
(iteration counter, in-flight queue, side flag), the transaction retry
loop (utils/transaction.ts), the event emitter (core/EventEmitter.ts)
and the application plugin lifecycle (core/app.ts).

Numeric amounts are modelled as rationals; JavaScript numbers on the
paths under study are used only for subtraction, division, scaling and
comparison, which the rational semantics captures.  A process.exit call
in the source is modelled as a Boolean exit-request flag, since the
embedding cannot terminate a process.
-/

namespace JupiterBot

/-- From src/unnamed/part_007, calculateProfit: percentage gain of
newAmount over baseAmount, with a guard returning 0 for a non-positive
base. -/
def calculateProfit (baseAmount newAmount : ℚ) : ℚ :=
  if baseAmount ≤ 0 then 0 else (newAmount - baseAmount) / baseAmount * 100

/-- A quoted route as the engine reads it: an identity for the route
object and the quoted output amount (the only field the selection logic
compares). -/
structure Route where
  rid : ℕ
  outAmount : ℚ
deriving DecidableEq

/-- Profit percentage the arbitrage selection loop assigns to a route. -/
def profitOf (amountToTrade : ℚ) (r : Route) : ℚ :=
  calculateProfit amountToTrade r.outAmount

/-- From ArbitrageStrategy.ts lines 81 to 92: the selection loop.  The
two accumulators mirror the mostProfitableRoute and highestProfit
variables; a candidate replaces them only when its profit is strictly
greater, so ties keep the earlier candidate. -/
def selectLoop (amountToTrade : ℚ) : Route → ℚ → List Route → Route × ℚ
  | best, hp, [] => (best, hp)
  | best, hp, r :: rs =>
      if hp < profitOf amountToTrade r then
        selectLoop amountToTrade r (profitOf amountToTrade r) rs
      else
        selectLoop amountToTrade best hp rs

/-- From ArbitrageStrategy.ts lines 75 to 92: start from the first route
and fold the loop over the remaining candidates. -/
def selectMostProfitable (amountToTrade : ℚ) (r0 : Route) (rest : List Route) : Route × ℚ :=
  selectLoop amountToTrade r0 (profitOf amountToTrade r0) rest

/-- Shape of the response object the utils-based strategies hand to
checkRoutesResponse: either a malformed object (no routesInfos field) or
a list of routes. -/
inductive RoutesResponse where
  | malformed : RoutesResponse
  | withRoutes : List Route → RoutesResponse
deriving DecidableEq

/-- From src/unnamed/part_007 lines 161 to 173, checkRoutesResponse.
Returns true exactly when the source calls process.exit(1): on a
malformed response or on an empty route list. -/
def checkRoutesResponse : RoutesResponse → Bool
  | RoutesResponse.malformed => true
  | RoutesResponse.withRoutes rs => rs.isEmpty

/-- Mutable state of the legacy PingPongStrategy (pingpong.ts): whether a
wallet was loaded, the error counter, the ping/pong direction flag
(true means ping) and the record of the last executed trade as the pair
of its input and output amounts. -/
structure PPState where
  hasWallet : Bool
  errorCount : ℕ
  directionPing : Bool
  lastTrade : Option (ℚ × ℚ)
deriving DecidableEq

/-- Environment outcome of one pingpong.ts execute call: the quote
endpoint returns an empty data array, some awaited step throws, or the
whole pipeline succeeds with the given quoted output amount. -/
inductive PPEnv where
  | quoteEmpty : PPEnv
  | throwErr : PPEnv
  | ok : ℚ → PPEnv
deriving DecidableEq

/-- The TradeResult value object (interfaces/strategy.ts) restricted to
the fields the claims read; hasError records whether the error field was
populated. -/
structure TradeResult where
  success : Bool
  inputAmount : ℚ
  outputAmount : ℚ
  profit : ℚ
  profitPercentage : ℚ
  hasError : Bool
deriving DecidableEq

/-- Result of one execute call: the successor state, the returned
TradeResult, and whether process.exit(1) was requested during the call. -/
structure ExecEffect where
  state : PPState
  result : TradeResult
  exitRequested : Bool
deriving DecidableEq

/-- From pingpong.ts lines 176 to 187: profit and profit percentage of a
successful trade, nonzero only when a last trade exists and the current
direction is pong. -/
def pingpongProfit (s : PPState) (outAmount : ℚ) : ℚ × ℚ :=
  match s.lastTrade with
  | some (inAmt, _) =>
      if s.directionPing = false then
        (outAmount - inAmt, (outAmount - inAmt) / inAmt * 100)
      else (0, 0)
  | none => (0, 0)

/-- From pingpong.ts lines 105 to 232, PingPongStrategy.execute.  With no
wallet the call returns a failed result untouched.  An empty quote
response returns a failed result without touching the error counter.  A
thrown error increments errorCount and requests process.exit(1) exactly
when the new count exceeds 100.  A successful trade records the trade,
flips the direction flag once, and leaves errorCount unchanged (the
source has no reset). -/
def pingpongExecute (s : PPState) (amount : ℚ) (env : PPEnv) : ExecEffect :=
  if s.hasWallet = false then
    { state := s
      result := { success := false, inputAmount := amount, outputAmount := 0,
                  profit := 0, profitPercentage := 0, hasError := true }
      exitRequested := false }
  else
    match env with
    | PPEnv.quoteEmpty =>
        { state := s
          result := { success := false, inputAmount := amount, outputAmount := 0,
                      profit := 0, profitPercentage := 0, hasError := true }
          exitRequested := false }
    | PPEnv.throwErr =>
        { state := { s with errorCount := s.errorCount + 1 }
          result := { success := false, inputAmount := amount, outputAmount := 0,
                      profit := 0, profitPercentage := 0, hasError := true }
          exitRequested := decide (100 < s.errorCount + 1) }
    | PPEnv.ok outAmount =>
        { state := { s with lastTrade := some (amount, outAmount),
                            directionPing := !s.directionPing }
          result := { success := true, inputAmount := amount, outputAmount := outAmount,
                      profit := (pingpongProfit s outAmount).1,
                      profitPercentage := (pingpongProfit s outAmount).2,
                      hasError := false }
          exitRequested := false }

/-- Mutable state of the legacy ArbitrageStrategy (arbitrage.ts): whether
the Jupiter handle was initialized, and the error counter. -/
structure ArbState where
  jupiterReady : Bool
  errorCount : ℕ
deriving DecidableEq

/-- Environment outcome of one arbitrage.ts execute call. -/
inductive ArbEnv where
  | noRoutes : ArbEnv
  | throwErr : ArbEnv
  | ok : ℚ → ArbEnv
deriving DecidableEq

/-- From arbitrage.ts lines 61 to 152, ArbitrageStrategy.execute.  Same
error-counter and exit discipline as the pingpong strategy; a successful
trade computes profit against the input amount. -/
def arbitrageExecute (t : ArbState) (amount : ℚ) (env : ArbEnv) :
    ArbState × TradeResult × Bool :=
  if t.jupiterReady = false then
    (t, { success := false, inputAmount := amount, outputAmount := 0,
          profit := 0, profitPercentage := 0, hasError := true }, false)
  else
    match env with
    | ArbEnv.noRoutes =>
        (t, { success := false, inputAmount := amount, outputAmount := 0,
              profit := 0, profitPercentage := 0, hasError := true }, false)
    | ArbEnv.throwErr =>
        ({ t with errorCount := t.errorCount + 1 },
         { success := false, inputAmount := amount, outputAmount := 0,
           profit := 0, profitPercentage := 0, hasError := true },
         decide (100 < t.errorCount + 1))
    | ArbEnv.ok outAmount =>
        (t, { success := true, inputAmount := amount, outputAmount := outAmount,
              profit := outAmount - amount,
              profitPercentage := (outAmount - amount) / amount * 100,
              hasError := false }, false)

/-- Fresh pingpong strategy state: wallet loaded, zero errors, direction
ping, no last trade. -/
def freshPP : PPState := { hasWallet := true, errorCount := 0,
                           directionPing := true, lastTrade := none }

/-- Drive the pingpong strategy over a list of per-call environment
outcomes, stopping at the first call that requests process.exit.  Returns
the zero-based index of the exiting call, if any, together with the state
after the last executed call. -/
def runPP (amount : ℚ) : PPState → List PPEnv → Option ℕ × PPState
  | s, [] => (none, s)
  | s, e :: es =>
      let eff := pingpongExecute s amount e
      if eff.exitRequested then (some 0, eff.state)
      else
        let rest := runPP amount eff.state es
        (rest.1.map (fun k => k + 1), rest.2)

/-- Number of throwing calls in an environment trace. -/
def countFails : List PPEnv → ℕ
  | [] => 0
  | PPEnv.throwErr :: es => countFails es + 1
  | _ :: es => countFails es

/-- Length of the trailing run of consecutive failures (reset by a
successful call, unaffected by an empty-quote call, which is neither a
failed nor a successful execution). -/
def consecFails (es : List PPEnv) : ℕ :=
  es.foldl (fun c e =>
    match e with
    | PPEnv.throwErr => c + 1
    | PPEnv.ok _ => 0
    | PPEnv.quoteEmpty => c) 0

/-- The concrete trace refuting claim C1 as stated: one failure, one
success, then 101 consecutive failures. -/
def circuitCexTrace : List PPEnv :=
  PPEnv.throwErr :: PPEnv.ok 1 :: List.replicate 101 PPEnv.throwErr

/-- The shared bot cache as the cache-driven strategies
(ArbitrageStrategy.ts) read and write it: iteration counter, the
in-flight status queue (an association list; the newest binding for a key
is the current value), the side flag, the trading kill switch, and the
minimum profit threshold from config. -/
structure BotCache where
  iteration : ℕ
  queue : List (ℕ × Int)
  sideBuy : Bool
  tradingEnabled : Bool
  minPercProfit : ℚ
deriving DecidableEq

/-- Write a status value for an iteration key (newest binding wins). -/
def setStatus (q : List (ℕ × Int)) (k : ℕ) (v : Int) : List (ℕ × Int) :=
  (k, v) :: q

/-- Read the current status of an iteration key. -/
def getStatus : List (ℕ × Int) → ℕ → Option Int
  | [], _ => none
  | (k, v) :: q, i => if k = i then some v else getStatus q i

/-- Outcome of the computeRoutes step in a cache-driven cycle: the await
throws, or it returns a response object. -/
inductive QuoteStep where
  | throwsErr : QuoteStep
  | response : RoutesResponse → QuoteStep
deriving DecidableEq

/-- True when the quote step returned a well-formed response holding at
least one route. -/
def hasRoutes : QuoteStep → Bool
  | QuoteStep.response (RoutesResponse.withRoutes (_ :: _)) => true
  | _ => false

/-- From ArbitrageStrategy.ts lines 129 to 207, the cache-driven
PingPongStrategy.execute.  The cycle increments the iteration counter,
marks the new key pending (-1), and then: if the quote throws, the catch
block only logs, leaving the key at -1; if checkRoutesResponse rejects
the response (malformed or zero routes) the source calls process.exit(1),
modelled by the true flag; otherwise the key is set to 0, the first route
is evaluated with calculateProfit against baseAmount, and when the
simulated profit clears minPercProfit with trading enabled, sideBuy is
toggled once. -/
def ppCacheExecute (c : BotCache) (baseAmount : ℚ) (q : QuoteStep) : BotCache × Bool :=
  let i := c.iteration + 1
  let c1 := { c with iteration := i, queue := setStatus c.queue i (-1) }
  match q with
  | QuoteStep.throwsErr => (c1, false)
  | QuoteStep.response RoutesResponse.malformed => (c1, true)
  | QuoteStep.response (RoutesResponse.withRoutes []) => (c1, true)
  | QuoteStep.response (RoutesResponse.withRoutes (r0 :: _)) =>
      let c2 := { c1 with queue := setStatus c1.queue i 0 }
      let simulatedProfit := calculateProfit baseAmount r0.outAmount
      if c.minPercProfit < simulatedProfit ∧ c.tradingEnabled = true then
        ({ c2 with sideBuy := !c2.sideBuy }, false)
      else (c2, false)

/-- From ArbitrageStrategy.ts lines 19 to 110, the cache-driven
ArbitrageStrategy.execute.  Same iteration and queue discipline; with
fewer than two routes the cycle returns early after marking the key 0,
otherwise the selection loop picks the most profitable route (returned
for inspection; the source only logs it). -/
def arbCacheExecute (c : BotCache) (amountToTrade : ℚ) (q : QuoteStep) :
    BotCache × Bool × Option (Route × ℚ) :=
  let i := c.iteration + 1
  let c1 := { c with iteration := i, queue := setStatus c.queue i (-1) }
  match q with
  | QuoteStep.throwsErr => (c1, false, none)
  | QuoteStep.response RoutesResponse.malformed => (c1, true, none)
  | QuoteStep.response (RoutesResponse.withRoutes []) => (c1, true, none)
  | QuoteStep.response (RoutesResponse.withRoutes (r0 :: rs)) =>
      let c2 := { c1 with queue := setStatus c1.queue i 0 }
      if rs.isEmpty then (c2, false, none)
      else (c2, false, some (selectMostProfitable amountToTrade r0 rs))

/-- Result of the transaction submission loop: a successful signature with
the number of attempts made and the list of back-off delays (in
milliseconds) performed, the re-raised last error likewise annotated, or
the loop-never-ran case (maxRetries = 0, where the source returns the
initial empty signature). -/
inductive SendOutcome (E S : Type) where
  | success : S → ℕ → List ℕ → SendOutcome E S
  | raised : E → ℕ → List ℕ → SendOutcome E S
  | emptyLoop : SendOutcome E S
deriving DecidableEq

/-- From utils/transaction.ts lines 71 to 108, the body of the retry
loop.  fuel is maxRetries minus the current retries counter; f gives the
outcome of the attempt made when the retries counter has a given value.
On failure the counter increments and, once it reaches maxRetries, the
last error is re-raised; otherwise the loop waits 1000 ms and retries. -/
def sendLoop {E S : Type} (f : ℕ → Except E S) (maxRetries : ℕ) :
    ℕ → ℕ → List ℕ → SendOutcome E S
  | 0, _, _ => SendOutcome.emptyLoop
  | fuel + 1, r, ds =>
      match f r with
      | Except.ok s => SendOutcome.success s (r + 1) ds
      | Except.error e =>
          if maxRetries ≤ r + 1 then SendOutcome.raised e (r + 1) ds
          else sendLoop f maxRetries fuel (r + 1) (ds ++ [1000])

/-- sendTransactionWithRetry: run the loop from a zero retries counter.
The source default for maxRetries is 3. -/
def sendTransactionWithRetry {E S : Type} (f : ℕ → Except E S) (maxRetries : ℕ) :
    SendOutcome E S :=
  sendLoop f maxRetries maxRetries 0 []

/-- A submitter stub that fails on its first two attempts and then
succeeds with signature 77. -/
def stubFailTwice : ℕ → Except ℕ ℕ :=
  fun n => if n < 2 then Except.error n else Except.ok 77

/-- An event handler as the emitter stores it: an identity and whether
invoking it raises. -/
structure Handler where
  hid : ℕ
  raises : Bool
deriving DecidableEq

/-- From core/EventEmitter.ts on (lines 14 to 20): append the handler to
the callback list of the event, creating the entry if absent. -/
def onEvent : List (String × List Handler) → String → Handler → List (String × List Handler)
  | [], e, h => [(e, [h])]
  | (k, hs) :: m, e, h =>
      if k = e then (k, hs ++ [h]) :: m
      else (k, hs) :: onEvent m e h

/-- The callback list currently registered for an event. -/
def handlersFor : List (String × List Handler) → String → List Handler
  | [], _ => []
  | (k, hs) :: m, e => if k = e then hs else handlersFor m e

/-- From core/EventEmitter.ts emit (lines 65 to 79): invoke the callbacks
in order; a raising callback is caught and logged.  Returns the ids of
the invoked handlers in invocation order and the ids logged as errors. -/
def runHandlers : List Handler → List ℕ × List ℕ
  | [] => ([], [])
  | h :: hs =>
      let rest := runHandlers hs
      (h.hid :: rest.1, if h.raises then h.hid :: rest.2 else rest.2)

/-- emit for an event: run all currently registered handlers. -/
def emitEvent (m : List (String × List Handler)) (e : String) : List ℕ × List ℕ :=
  runHandlers (handlersFor m e)

/-- A registered plugin as Application.start and Application.stop see it:
its name and whether its start and stop lifecycle calls succeed. -/
structure AppPlugin where
  pname : String
  startOk : Bool
  stopOk : Bool
deriving DecidableEq

/-- Events the application emits during the plugin lifecycle
(core/events.ts EventType). -/
inductive AppEvent where
  | pluginStarted : String → AppEvent
  | pluginStopped : String → AppEvent
  | pluginError : String → AppEvent
  | systemReady : AppEvent
  | systemShutdown : AppEvent
deriving DecidableEq

/-- From core/app.ts lines 77 to 89: the start loop.  Each plugin yields
plugin:started, or plugin:error carrying its name when its start call
throws; the loop continues past failures. -/
def startPlugins : List AppPlugin → List AppEvent
  | [] => []
  | p :: ps =>
      (if p.startOk then AppEvent.pluginStarted p.pname
       else AppEvent.pluginError p.pname) :: startPlugins ps

/-- From core/app.ts lines 108 to 120: the stop loop. -/
def stopPlugins : List AppPlugin → List AppEvent
  | [] => []
  | p :: ps =>
      (if p.stopOk then AppEvent.pluginStopped p.pname
       else AppEvent.pluginError p.pname) :: stopPlugins ps

/-- From core/app.ts lines 68 to 94, Application.start: a no-op when
already running, otherwise start every plugin and emit system:ready.
Returns the new isRunning flag and the emitted events. -/
def appStart (isRunning : Bool) (ps : List AppPlugin) : Bool × List AppEvent :=
  if isRunning then (true, [])
  else (true, startPlugins ps ++ [AppEvent.systemReady])

/-- From core/app.ts lines 99 to 125, Application.stop: a no-op when not
running, otherwise stop every plugin and emit system:shutdown. -/
def appStop (isRunning : Bool) (ps : List AppPlugin) : Bool × List AppEvent :=
  if isRunning then (false, stopPlugins ps ++ [AppEvent.systemShutdown])
  else (false, [])

/-! Helper lemmas. -/

theorem runHandlers_spec (hs : List Handler) :
    runHandlers hs = (hs.map Handler.hid, (hs.filter Handler.raises).map Handler.hid) := by
  induction hs with
  | nil => rfl
  | cons h t ih =>
      simp only [runHandlers, ih, List.map_cons, List.filter_cons]
      cases hr : h.raises <;> simp

theorem handlersFor_onEvent (m : List (String × List Handler)) (e : String) (h : Handler) :
    handlersFor (onEvent m e h) e = handlersFor m e ++ [h] := by
  induction m with
  | nil => simp [onEvent, handlersFor]
  | cons kv m ih =>
      obtain ⟨k, hs⟩ := kv
      by_cases hk : k = e
      · simp [onEvent, handlersFor, hk]
      · simp [onEvent, handlersFor, hk, ih]

theorem startPlugins_append (a b : List AppPlugin) :
    startPlugins (a ++ b) = startPlugins a ++ startPlugins b := by
  induction a with
  | nil => rfl
  | cons p t ih => simp [startPlugins, ih]

theorem stopPlugins_append (a b : List AppPlugin) :
    stopPlugins (a ++ b) = stopPlugins a ++ stopPlugins b := by
  induction a with
  | nil => rfl
  | cons p t ih => simp [stopPlugins, ih]

theorem runPP_none_iff (amount : ℚ) :
    ∀ (es : List PPEnv) (s : PPState), s.hasWallet = true → s.errorCount ≤ 100 →
    ((runPP amount s es).1 = none ↔ s.errorCount + countFails es ≤ 100) := by
  intro es
  induction es with
  | nil =>
      intro s hw hc
      simpa [runPP, countFails] using hc
  | cons e es ih =>
      intro s hw hc
      cases e with
      | quoteEmpty =>
          have hstep : pingpongExecute s amount PPEnv.quoteEmpty
              = { state := s
                  result := { success := false, inputAmount := amount, outputAmount := 0,
                              profit := 0, profitPercentage := 0, hasError := true }
                  exitRequested := false } := by
            simp [pingpongExecute, hw]
          simp only [runPP, hstep, countFails, Bool.false_eq_true, if_false,
            Option.map_eq_none']
          exact ih s hw hc
      | ok amt =>
          have hstep : pingpongExecute s amount (PPEnv.ok amt)
              = { state :=
                    { s with lastTrade := some (amount, amt), directionPing := !s.directionPing }
                  result := { success := true, inputAmount := amount, outputAmount := amt,
                              profit := (pingpongProfit s amt).1,
                              profitPercentage := (pingpongProfit s amt).2,
                              hasError := false }
                  exitRequested := false } := by
            simp [pingpongExecute, hw]
          simp only [runPP, hstep, countFails, Bool.false_eq_true, if_false,
            Option.map_eq_none']
          exact ih _ hw hc
      | throwErr =>
          have hstep : pingpongExecute s amount PPEnv.throwErr
              = { state := { s with errorCount := s.errorCount + 1 }
                  result := { success := false, inputAmount := amount, outputAmount := 0,
                              profit := 0, profitPercentage := 0, hasError := true }
                  exitRequested := decide (100 < s.errorCount + 1) } := by
            simp [pingpongExecute, hw]
          rcases Nat.lt_or_ge s.errorCount 100 with hlt | hge
          · have hno : ¬ (100 < s.errorCount + 1) := by omega
            have hih := ih { s with errorCount := s.errorCount + 1 } hw (by simp; omega)
            simp only [runPP, hstep, countFails, decide_eq_true_eq, hno, if_false,
              decide_eq_false hno, Bool.false_eq_true, Option.map_eq_none']
            simp only at hih
            rw [hih]
            omega
          · have heq : s.errorCount = 100 := by omega
            have hyes : (100 : ℕ) < s.errorCount + 1 := by omega
            simp only [runPP, hstep, decide_eq_true hyes, if_true, countFails]
            constructor
            · intro h
              exact absurd h (by simp)
            · intro h
              omega

/-! Claim theorems. -/

/-- C1 counterexample: a call sequence from a fresh strategy consisting of
one failure, one success, then 101 consecutive failures with no
intervening success.  The claim says termination is requested immediately
after the 101st failure of the consecutive run (index 102) and never
while the consecutive-failure count is 100 or less; the code requests
exit at index 101, where the consecutive-failure count since the success
is only 100, because the source never resets errorCount on success. -/
theorem circuit_breaker_cex :
    (runPP 1 freshPP circuitCexTrace).1 = some 101
    ∧ consecFails (circuitCexTrace.take 102) = 100
    ∧ circuitCexTrace.drop 2 = List.replicate 101 PPEnv.throwErr
    ∧ circuitCexTrace.get? 1 = some (PPEnv.ok 1) := by
  decide

/-- C1 (amended): the error counter is cumulative, never reset by a
success; from a fresh strategy the engine requests process termination
exactly on the call at which the total number of failed executions
reaches 101 — hence exactly once and, for a run of 101 consecutive
failures with no prior errors, immediately after the 101st failure (index
100) — but after an intervening success it can fire while the
consecutive-failure count is still 100 or less.  The arbitrage strategy
shares the same exit rule. -/
theorem circuit_breaker_amended (es : List PPEnv) (t : ArbState) (a : ℚ) :
    ((runPP 1 freshPP es).1 = none ↔ countFails es ≤ 100)
    ∧ (runPP 1 freshPP (List.replicate 101 PPEnv.throwErr)).1 = some 100
    ∧ (t.jupiterReady = true →
        ((arbitrageExecute t a ArbEnv.throwErr).2.2 = true ↔ 100 < t.errorCount + 1)) := by
  refine ⟨?_, by decide, ?_⟩
  · simpa [freshPP] using runPP_none_iff 1 es freshPP rfl (by simp [freshPP])
  · intro hj
    simp [arbitrageExecute, hj]

/-- Witness for C1 (amended): an arbitrage strategy at 100 accumulated
errors requests exit on the next failure. -/
theorem circuit_breaker_amended_witness :
    (arbitrageExecute { jupiterReady := true, errorCount := 100 } 1 ArbEnv.throwErr).2.2
      = true :=
  ((circuit_breaker_amended [] { jupiterReady := true, errorCount := 100 } 1).2.2
    rfl).mpr (by decide)

/-- C3 counterexample: after five failures from a fresh strategy, a
successful execution returns success yet leaves the error counter at 5;
the source never resets it to zero. -/
theorem error_counter_cex :
    (runPP 1 freshPP (List.replicate 5 PPEnv.throwErr)).2.errorCount = 5
    ∧ (pingpongExecute (runPP 1 freshPP (List.replicate 5 PPEnv.throwErr)).2 1
        (PPEnv.ok 1)).result.success = true
    ∧ (pingpongExecute (runPP 1 freshPP (List.replicate 5 PPEnv.throwErr)).2 1
        (PPEnv.ok 1)).state.errorCount = 5 := by
  decide

/-- C3 (amended): in both legacy strategies the error counter is
incremented on every failed execution (one whose pipeline throws, with
the collaborator available) and left unchanged by every other call,
including successful executions: it is never reset. -/
theorem error_counter_dynamics (s : PPState) (a : ℚ) (env : PPEnv)
    (t : ArbState) (e2 : ArbEnv) :
    (pingpongExecute s a env).state.errorCount
      = (if s.hasWallet = true ∧ env = PPEnv.throwErr
         then s.errorCount + 1 else s.errorCount)
    ∧ (arbitrageExecute t a e2).1.errorCount
      = (if t.jupiterReady = true ∧ e2 = ArbEnv.throwErr
         then t.errorCount + 1 else t.errorCount) := by
  constructor
  · cases hw : s.hasWallet <;> cases env <;> simp [pingpongExecute, hw]
  · cases hj : t.jupiterReady <;> cases e2 <;> simp [arbitrageExecute, hj]

/-- C4 counterexample: in the utils-based strategies a quote returning
zero routes is not cycle-scoped: checkRoutesResponse calls
process.exit(1), and so does the cache-driven ping-pong cycle fed a
zero-route response. -/
theorem quote_failure_cex :
    checkRoutesResponse (RoutesResponse.withRoutes []) = true
    ∧ (ppCacheExecute
        { iteration := 0, queue := [], sideBuy := true,
          tradingEnabled := true, minPercProfit := 1 } 1
        (QuoteStep.response (RoutesResponse.withRoutes []))).2 = true := by
  decide

/-- C4 (amended): in the legacy strategies (pingpong.ts, arbitrage.ts) a
quote failure is cycle-scoped — execute returns a failed result with an
error description, state untouched, error counter unchanged, and no
termination request — but in the strategies that validate quotes through
checkRoutesResponse (ArbitrageStrategy.ts), a zero-route or malformed
response makes the engine request process termination. -/
theorem quote_failure_amended (s : PPState) (t : ArbState) (a : ℚ) (c : BotCache) :
    (pingpongExecute s a PPEnv.quoteEmpty).exitRequested = false
    ∧ (pingpongExecute s a PPEnv.quoteEmpty).result.success = false
    ∧ (pingpongExecute s a PPEnv.quoteEmpty).result.hasError = true
    ∧ (pingpongExecute s a PPEnv.quoteEmpty).state = s
    ∧ (arbitrageExecute t a ArbEnv.noRoutes).2.2 = false
    ∧ (arbitrageExecute t a ArbEnv.noRoutes).2.1.success = false
    ∧ (arbitrageExecute t a ArbEnv.noRoutes).2.1.hasError = true
    ∧ (arbitrageExecute t a ArbEnv.noRoutes).1 = t
    ∧ (ppCacheExecute c a (QuoteStep.response (RoutesResponse.withRoutes []))).2 = true
    ∧ (ppCacheExecute c a (QuoteStep.response RoutesResponse.malformed)).2 = true
    ∧ checkRoutesResponse (RoutesResponse.withRoutes []) = true := by
  refine ⟨?_, ?_, ?_, ?_, ?_, ?_, ?_, ?_, ?_, ?_, rfl⟩ <;>
    first
      | (cases hw : s.hasWallet <;> simp [pingpongExecute, hw])
      | (cases hj : t.jupiterReady <;> simp [arbitrageExecute, hj])
      | simp [ppCacheExecute]

/-- C5 counterexample: a cycle whose quote step throws settles (the catch
block only logs), yet leaves the in-flight entry for its iteration at the
pending marker -1. -/
theorem inflight_pending_cex :
    ((ppCacheExecute
        { iteration := 0, queue := [], sideBuy := true,
          tradingEnabled := true, minPercProfit := 1 } 1 QuoteStep.throwsErr).1.iteration = 1)
    ∧ (getStatus (ppCacheExecute
        { iteration := 0, queue := [], sideBuy := true,
          tradingEnabled := true, minPercProfit := 1 } 1 QuoteStep.throwsErr).1.queue 1
        = some (-1)) := by
  decide

/-- C5 (amended): every cycle of the cache-driven strategies increments
the iteration counter by exactly 1 and marks the new iteration pending
(-1) at cycle start; the entry is updated to 0 exactly on cycles whose
quote step returns a well-formed, non-empty route response, and stays at
-1 when the quote step throws (the error path never updates it) or when
the response is rejected (where the source exits the process). -/
theorem iteration_queue_amended (c : BotCache) (a : ℚ) (q : QuoteStep) :
    (ppCacheExecute c a q).1.iteration = c.iteration + 1
    ∧ (arbCacheExecute c a q).1.iteration = c.iteration + 1
    ∧ getStatus (ppCacheExecute c a q).1.queue (c.iteration + 1)
        = some (if hasRoutes q = true then 0 else -1)
    ∧ getStatus (arbCacheExecute c a q).1.queue (c.iteration + 1)
        = some (if hasRoutes q = true then 0 else -1) := by
  rcases q with _ | (_ | (_ | ⟨r0, rs⟩))
  · simp [ppCacheExecute, arbCacheExecute, hasRoutes, getStatus, setStatus]
  · simp [ppCacheExecute, arbCacheExecute, hasRoutes, getStatus, setStatus]
  · simp [ppCacheExecute, arbCacheExecute, hasRoutes, getStatus, setStatus]
  · refine ⟨?_, ?_, ?_, ?_⟩ <;>
      · simp only [ppCacheExecute, arbCacheExecute, setStatus]
        split_ifs <;> simp_all [getStatus, hasRoutes]

/-- C6: in both ping-pong implementations the side flag flips exactly
once on a cycle whose trade executes (legacy strategy: execute returns
success; cache strategy: profit clears the threshold with trading
enabled) and is unchanged on a failed cycle and on a no-trade cycle. -/
theorem side_flip_discipline (s : PPState) (a : ℚ) (env : PPEnv)
    (c : BotCache) (b : ℚ) (q : QuoteStep) :
    ((pingpongExecute s a env).result.success = true →
        (pingpongExecute s a env).state.directionPing = !s.directionPing)
    ∧ ((pingpongExecute s a env).result.success = false →
        (pingpongExecute s a env).state.directionPing = s.directionPing)
    ∧ ((ppCacheExecute c b QuoteStep.throwsErr).1.sideBuy = c.sideBuy)
    ∧ (c.tradingEnabled = false → (ppCacheExecute c b q).1.sideBuy = c.sideBuy)
    ∧ (∀ r0 rs, q = QuoteStep.response (RoutesResponse.withRoutes (r0 :: rs)) →
        calculateProfit b r0.outAmount ≤ c.minPercProfit →
        (ppCacheExecute c b q).1.sideBuy = c.sideBuy)
    ∧ (∀ r0 rs, q = QuoteStep.response (RoutesResponse.withRoutes (r0 :: rs)) →
        c.minPercProfit < calculateProfit b r0.outAmount → c.tradingEnabled = true →
        (ppCacheExecute c b q).1.sideBuy = !c.sideBuy) := by
  refine ⟨?_, ?_, ?_, ?_, ?_, ?_⟩
  · cases hw : s.hasWallet <;> cases env <;> simp [pingpongExecute, hw]
  · cases hw : s.hasWallet <;> cases env <;> simp [pingpongExecute, hw]
  · simp [ppCacheExecute]
  · intro ht
    rcases q with _ | (_ | (_ | ⟨r0, rs⟩)) <;> simp [ppCacheExecute, ht]
  · intro r0 rs hq hle
    subst hq
    have : ¬ (c.minPercProfit < calculateProfit b r0.outAmount ∧ c.tradingEnabled = true) := by
      rintro ⟨h1, -⟩
      exact absurd hle (not_le.mpr h1)
    simp [ppCacheExecute, this]
  · intro r0 rs hq hgt ht
    subst hq
    simp [ppCacheExecute, hgt, ht]

/-- Witness for C6: a successful trade from the fresh ping-pong state
flips the direction flag. -/
theorem side_flip_discipline_witness :
    (pingpongExecute freshPP 1 (PPEnv.ok 1)).state.directionPing
      = !freshPP.directionPing :=
  (side_flip_discipline freshPP 1 (PPEnv.ok 1)
      { iteration := 0, queue := [], sideBuy := true,
        tradingEnabled := true, minPercProfit := 1 }
      1 QuoteStep.throwsErr).1 (by decide)

/-- C10: for every baseAmount less than or equal to zero, calculateProfit
returns 0 for every newAmount; the profit computation never divides by a
non-positive base. -/
theorem calculate_profit_nonpos_base (baseAmount newAmount : ℚ)
    (hb : baseAmount ≤ 0) : calculateProfit baseAmount newAmount = 0 := by
  simp [calculateProfit, hb]

/-- Witness for C10 at baseAmount = 0, newAmount = 5. -/
theorem calculate_profit_nonpos_base_witness : calculateProfit 0 5 = 0 :=
  calculate_profit_nonpos_base 0 5 le_rfl

/-- C9: during Application.start and Application.stop, a plugin whose
lifecycle call fails yields a plugin:error event carrying its name, and
the remaining plugins are still processed: the event list decomposes
around any plugin into the events of the plugins before it, its own
event, and the unchanged events of the plugins after it. -/
theorem plugin_failure_isolated (l1 l2 : List AppPlugin) (p : AppPlugin) :
    (appStart false (l1 ++ p :: l2)).2
      = startPlugins l1
        ++ (if p.startOk then AppEvent.pluginStarted p.pname
            else AppEvent.pluginError p.pname)
        :: (startPlugins l2 ++ [AppEvent.systemReady])
    ∧ (appStop true (l1 ++ p :: l2)).2
      = stopPlugins l1
        ++ (if p.stopOk then AppEvent.pluginStopped p.pname
            else AppEvent.pluginError p.pname)
        :: (stopPlugins l2 ++ [AppEvent.systemShutdown]) := by
  constructor
  · simp [appStart, startPlugins_append, startPlugins]
  · simp [appStop, stopPlugins_append, stopPlugins]

/-- C8: emit runs every currently registered handler for the event, in
registration order (a handler added by on is appended at the end), before
returning; a raising handler is recorded in the error log and neither
stops the remaining handlers (the invoked list covers all handlers
regardless of the raises flags) nor propagates (emitEvent is total). -/
theorem emit_runs_all_handlers (m : List (String × List Handler)) (e : String) (h : Handler) :
    (emitEvent m e).1 = (handlersFor m e).map Handler.hid
    ∧ (emitEvent m e).2 = ((handlersFor m e).filter Handler.raises).map Handler.hid
    ∧ handlersFor (onEvent m e h) e = handlersFor m e ++ [h] := by
  refine ⟨?_, ?_, handlersFor_onEvent m e h⟩
  · simp [emitEvent, runHandlers_spec]
  · simp [emitEvent, runHandlers_spec]

/-- C7: sendTransactionWithRetry with the default budget of 3 makes at
most 3 attempts, waits 1000 ms between consecutive attempts, returns the
signature of the first successful attempt, and re-raises the last error
after the third failure; the four cases below are exhaustive over the
outcomes of the first three attempts. -/
theorem send_retry_policy {E S : Type} (f : ℕ → Except E S) :
    (∀ s, f 0 = Except.ok s →
        sendTransactionWithRetry f 3 = SendOutcome.success s 1 [])
    ∧ (∀ e0 s, f 0 = Except.error e0 → f 1 = Except.ok s →
        sendTransactionWithRetry f 3 = SendOutcome.success s 2 [1000])
    ∧ (∀ e0 e1 s, f 0 = Except.error e0 → f 1 = Except.error e1 → f 2 = Except.ok s →
        sendTransactionWithRetry f 3 = SendOutcome.success s 3 [1000, 1000])
    ∧ (∀ e0 e1 e2, f 0 = Except.error e0 → f 1 = Except.error e1 → f 2 = Except.error e2 →
        sendTransactionWithRetry f 3 = SendOutcome.raised e2 3 [1000, 1000]) := by
  refine ⟨?_, ?_, ?_, ?_⟩
  · intro s h0
    simp [sendTransactionWithRetry, sendLoop, h0]
  · intro e0 s h0 h1
    simp [sendTransactionWithRetry, sendLoop, h0, h1]
  · intro e0 e1 s h0 h1 h2
    simp [sendTransactionWithRetry, sendLoop, h0, h1, h2]
  · intro e0 e1 e2 h0 h1 h2
    simp [sendTransactionWithRetry, sendLoop, h0, h1, h2]

/-- Witness for C7: a submitter stub that fails twice and then succeeds
returns the successful signature after 3 attempts with two 1-second
waits, raising no error. -/
theorem send_retry_policy_witness :
    sendTransactionWithRetry stubFailTwice 3 = SendOutcome.success 77 3 [1000, 1000] :=
  (send_retry_policy stubFailTwice).2.2.1 0 1 77 rfl rfl rfl

theorem selectLoop_snd_ge (a : ℚ) :
    ∀ (rs : List Route) (b : Route) (p : ℚ), p ≤ (selectLoop a b p rs).2 := by
  intro rs
  induction rs with
  | nil => intro b p; simp [selectLoop]
  | cons r rs ih =>
      intro b p
      by_cases h : p < profitOf a r
      · simp only [selectLoop, if_pos h]
        exact le_trans (le_of_lt h) (ih r _)
      · simp only [selectLoop, if_neg h]
        exact ih b p

theorem selectLoop_snd_eq (a : ℚ) :
    ∀ (rs : List Route) (b : Route),
    (selectLoop a b (profitOf a b) rs).2 = profitOf a (selectLoop a b (profitOf a b) rs).1 := by
  intro rs
  induction rs with
  | nil => intro b; simp [selectLoop]
  | cons r rs ih =>
      intro b
      by_cases h : profitOf a b < profitOf a r
      · simp only [selectLoop, if_pos h]
        exact ih r
      · simp only [selectLoop, if_neg h]
        exact ih b

theorem selectLoop_mem (a : ℚ) :
    ∀ (rs : List Route) (b : Route) (p : ℚ),
    (selectLoop a b p rs).1 = b ∨ (selectLoop a b p rs).1 ∈ rs := by
  intro rs
  induction rs with
  | nil => intro b p; simp [selectLoop]
  | cons r rs ih =>
      intro b p
      by_cases h : p < profitOf a r
      · simp only [selectLoop, if_pos h]
        rcases ih r (profitOf a r) with h1 | h1
        · exact Or.inr (by simp [h1])
        · exact Or.inr (List.mem_cons_of_mem _ h1)
      · simp only [selectLoop, if_neg h]
        rcases ih b p with h1 | h1
        · exact Or.inl h1
        · exact Or.inr (List.mem_cons_of_mem _ h1)

theorem selectLoop_ub (a : ℚ) :
    ∀ (rs : List Route) (b : Route) (p : ℚ) (x : Route),
    x ∈ rs → profitOf a x ≤ (selectLoop a b p rs).2 := by
  intro rs
  induction rs with
  | nil => intro b p x hx; cases hx
  | cons r rs ih =>
      intro b p x hx
      rcases List.mem_cons.mp hx with rfl | hx
      · by_cases h : p < profitOf a x
        · simp only [selectLoop, if_pos h]
          exact selectLoop_snd_ge a rs x _
        · simp only [selectLoop, if_neg h]
          exact le_trans (le_of_not_lt h) (selectLoop_snd_ge a rs b p)
      · by_cases h : p < profitOf a r
        · simp only [selectLoop, if_pos h]
          exact ih r _ x hx
        · simp only [selectLoop, if_neg h]
          exact ih b p x hx

theorem selectLoop_firstSeen (a : ℚ) :
    ∀ (rs : List Route) (b : Route),
    ∃ l1 l2, b :: rs = l1 ++ (selectLoop a b (profitOf a b) rs).1 :: l2
      ∧ ∀ r ∈ l1, profitOf a r < (selectLoop a b (profitOf a b) rs).2 := by
  intro rs
  induction rs with
  | nil => intro b; exact ⟨[], [], by simp [selectLoop], by simp⟩
  | cons r rs ih =>
      intro b
      by_cases h : profitOf a b < profitOf a r
      · simp only [selectLoop, if_pos h]
        obtain ⟨l1, l2, heq, hlt⟩ := ih r
        refine ⟨b :: l1, l2, ?_, ?_⟩
        · simpa using heq
        · intro x hx
          rcases List.mem_cons.mp hx with rfl | hx
          · exact lt_of_lt_of_le h (selectLoop_snd_ge a rs r (profitOf a r))
          · exact hlt x hx
      · simp only [selectLoop, if_neg h]
        obtain ⟨l1, l2, heq, hlt⟩ := ih b
        cases l1 with
        | nil =>
            rw [List.nil_append, List.cons.injEq] at heq
            obtain ⟨hb, hl2⟩ := heq
            refine ⟨[], r :: rs, ?_, by simp⟩
            simp [← hb]
        | cons x l1 =>
            rw [List.cons_append, List.cons.injEq] at heq
            obtain ⟨hbx, hrs⟩ := heq
            subst hbx
            refine ⟨b :: r :: l1, l2, ?_, ?_⟩
            · conv_lhs => rw [hrs]
              simp
            · intro y hy
              have hb_lt : profitOf a b < (selectLoop a b (profitOf a b) rs).2 :=
                hlt b (by simp)
              rcases List.mem_cons.mp hy with rfl | hy2
              · exact hb_lt
              · rcases List.mem_cons.mp hy2 with rfl | hy3
                · exact lt_of_le_of_lt (le_of_not_lt h) hb_lt
                · exact hlt y (by simp [hy3])

theorem selected_mem (a : ℚ) (r0 : Route) (rest : List Route) :
    (selectMostProfitable a r0 rest).1 ∈ r0 :: rest := by
  rcases selectLoop_mem a rest r0 (profitOf a r0) with h | h
  · simp [selectMostProfitable, h]
  · exact List.mem_cons_of_mem _ h

theorem selected_ub (a : ℚ) (r0 : Route) (rest : List Route) :
    ∀ r ∈ r0 :: rest, profitOf a r ≤ (selectMostProfitable a r0 rest).2 := by
  intro r hr
  rcases List.mem_cons.mp hr with rfl | hr
  · exact selectLoop_snd_ge a rest r (profitOf a r)
  · exact selectLoop_ub a rest r0 (profitOf a r0) r hr

theorem selected_profit_perm (a : ℚ) (r0 : Route) (rest : List Route)
    (r1 : Route) (rest1 : List Route) (hperm : (r0 :: rest).Perm (r1 :: rest1)) :
    (selectMostProfitable a r1 rest1).2 = (selectMostProfitable a r0 rest).2 := by
  have e0 : (selectMostProfitable a r0 rest).2
      = profitOf a (selectMostProfitable a r0 rest).1 := selectLoop_snd_eq a rest r0
  have e1 : (selectMostProfitable a r1 rest1).2
      = profitOf a (selectMostProfitable a r1 rest1).1 := selectLoop_snd_eq a rest1 r1
  apply le_antisymm
  · rw [e1]
    exact selected_ub a r0 rest _ (hperm.symm.subset (selected_mem a r1 rest1))
  · rw [e0]
    exact selected_ub a r1 rest1 _ (hperm.subset (selected_mem a r0 rest))

/-- C2 counterexample: two distinct candidate routes with equal output
amount (hence equal profit percentage) at input amount 1.  The first-seen
tie-break makes the selected route depend on the ordering: each ordering
of the same two candidates selects its own first element, so the selected
route is not invariant under permutation of the candidate list. -/
theorem route_selection_cex :
    List.Perm [(⟨1, 2⟩ : Route), ⟨2, 2⟩] [⟨2, 2⟩, ⟨1, 2⟩]
    ∧ (selectMostProfitable 1 ⟨1, 2⟩ [⟨2, 2⟩]).1 = ⟨1, 2⟩
    ∧ (selectMostProfitable 1 ⟨2, 2⟩ [⟨1, 2⟩]).1 = ⟨2, 2⟩
    ∧ (⟨1, 2⟩ : Route) ≠ ⟨2, 2⟩ := by
  refine ⟨List.Perm.swap _ _ _, ?_, ?_, by simp⟩ <;>
    norm_num [selectMostProfitable, selectLoop, profitOf, calculateProfit]

/-- C2 (amended): for a positive input amount the profit percentage of
each candidate is (outputAmount - inputAmount) / inputAmount x 100, and
the evaluation selects the candidate with the maximum profit percentage,
ties broken by the first-seen (lowest-index) candidate; the PROFIT of the
selected route is the same for every permutation of the candidate list,
but the selected route itself need not be (see the counterexample). -/
theorem route_selection_amended (a : ℚ) (r0 : Route) (rest : List Route) :
    (0 < a → ∀ r : Route, profitOf a r = (r.outAmount - a) / a * 100)
    ∧ (selectMostProfitable a r0 rest).2
        = profitOf a (selectMostProfitable a r0 rest).1
    ∧ (∀ r ∈ r0 :: rest, profitOf a r ≤ (selectMostProfitable a r0 rest).2)
    ∧ (∃ l1 l2, r0 :: rest = l1 ++ (selectMostProfitable a r0 rest).1 :: l2
        ∧ ∀ r ∈ l1, profitOf a r < (selectMostProfitable a r0 rest).2)
    ∧ (∀ (r1 : Route) (rest1 : List Route), (r0 :: rest).Perm (r1 :: rest1) →
        (selectMostProfitable a r1 rest1).2 = (selectMostProfitable a r0 rest).2) := by
  refine ⟨?_, selectLoop_snd_eq a rest r0, selected_ub a r0 rest,
    selectLoop_firstSeen a rest r0, fun r1 rest1 h => selected_profit_perm a r0 rest r1 rest1 h⟩
  intro ha r
  rw [profitOf, calculateProfit, if_neg (not_le.mpr ha)]

/-- Witness for C2 (amended) at input amount 1 and a single candidate. -/
theorem route_selection_amended_witness :
    profitOf 1 ⟨1, 2⟩ = (((⟨1, 2⟩ : Route).outAmount - 1) / 1 * 100)
    ∧ (selectMostProfitable 1 ⟨1, 2⟩ []).2 = (selectMostProfitable 1 ⟨1, 2⟩ []).2 :=
  ⟨(route_selection_amended 1 ⟨1, 2⟩ []).1 (by norm_num) ⟨1, 2⟩,
   (route_selection_amended 1 ⟨1, 2⟩ []).2.2.2.2 ⟨1, 2⟩ [] (List.Perm.refl _)⟩

end JupiterBot
